import Mathlib

/-!
Verification of `doc/doxygen-xml/tasks/xsl_transform.py`, a small utility that
applies an XSLT stylesheet to one or more XML documents.

The script is embedded shallowly:

* The underlying XSLT library (lxml.etree) is abstracted as an `Engine`
  of pure partial operations over abstract document and compiled-stylesheet
  types.  Parsing, compilation and application may each fail with an error.
* The process state is a `World`: the filesystem (path to optional content),
  the standard-output lines printed so far, a writability map, and
  instrumentation traces recording every call to the library entry points
  (which filenames were parsed, how many stylesheets were compiled, and which
  compiled stylesheet object was used by each application).  The traces make
  observable properties such as compile-once and processing order provable.
* A raised Python exception is modelled as `Except.error (e, w)` carrying the
  world at the moment the exception escapes, since side effects already
  performed are not rolled back by an exception.
-/

/-- Error kinds of the script: unreadable or unwritable path, malformed
XML or XSLT input, and a failure of the engine while applying a stylesheet. -/
inductive XErr where
  | ioError
  | parseError
  | transformError
deriving DecidableEq, Repr

/-- The observable process state: file contents by path, which paths are
writable, lines printed to standard output, and the instrumentation traces
of library calls (filenames given to the XML parsing routine in call order,
the number of stylesheet compilations, and for each stylesheet application
the identifier of the compiled stylesheet object it used). -/
structure World where
  fs : String → Option String
  writable : String → Bool
  stdout : List String
  parseCalls : List String
  compileCalls : Nat
  applyCalls : List Nat

/-- The abstract XSLT engine (the lxml library): parsing text into a document
tree, compiling a parsed stylesheet document, applying a compiled stylesheet
to a document, and serializing a document to text. -/
structure Engine (D X : Type) where
  parseContent : String → Except XErr D
  compileXslt : D → Except XErr X
  applyXslt : X → D → Except XErr D
  str : D → String

variable {D X : Type}

/-- The world produced by a run, whether it ended normally or by exception. -/
def outWorld : Except (XErr × World) World → World
  | .ok w => w
  | .error (_, w) => w

/-- Model of a call `ET.parse(fname)`: the call is recorded in the trace;
a missing or unreadable file raises an io error, malformed content raises
whatever error the engine parser reports. -/
def et_parse (E : Engine D X) (fname : String) (w : World) :
    Except (XErr × World) (D × World) :=
  let w1 := { w with parseCalls := w.parseCalls ++ [fname] }
  match w.fs fname with
  | none => .error (.ioError, w1)
  | some c =>
    match E.parseContent c with
    | .error e => .error (e, w1)
    | .ok d => .ok (d, w1)

/-- Model of a call `ET.XSLT(xslt)`: compiles a parsed stylesheet document.
The compiled object is tagged with a fresh identifier (the running compile
count) so that later applications can be traced back to it. -/
def et_xslt (E : Engine D X) (d : D) (w : World) :
    Except (XErr × World) ((Nat × X) × World) :=
  let w1 := { w with compileCalls := w.compileCalls + 1 }
  match E.compileXslt d with
  | .error e => .error (e, w1)
  | .ok x => .ok ((w.compileCalls, x), w1)

/-- Model of a call `xslt_tf(doc)`: applies a compiled stylesheet to a parsed
document, recording which compiled object was used. -/
def applyTf (E : Engine D X) (t : Nat × X) (d : D) (w : World) :
    Except (XErr × World) (D × World) :=
  let w1 := { w with applyCalls := w.applyCalls ++ [t.1] }
  match E.applyXslt t.2 d with
  | .error e => .error (e, w1)
  | .ok r => .ok (r, w1)

/-- `save_doc(doc, filename)`: opens `filename` for truncating write and
prints the document into it; `print` appends one newline after the serialized
text.  Opening an unwritable path raises an io error and leaves the file
untouched. -/
def save_doc (E : Engine D X) (doc : D) (filename : String) (w : World) :
    Except (XErr × World) World :=
  if w.writable filename then
    .ok { w with
          fs := fun p => if p = filename then some (E.str doc ++ "\n") else w.fs p }
  else
    .error (.ioError, w)

/-- `transform_doc(in_file, xslt_tf, out_file)`: parse the input file, apply
the already compiled stylesheet, save the result. -/
def transform_doc (E : Engine D X) (in_file : String) (xslt_tf : Nat × X)
    (out_file : String) (w : World) : Except (XErr × World) World :=
  match et_parse E in_file w with
  | .error ew => .error ew
  | .ok (doc, w1) =>
    match applyTf E xslt_tf doc w1 with
    | .error ew => .error ew
    | .ok (transformed_doc, w2) => save_doc E transformed_doc out_file w2

/-- `xsl_transform(infile, xslFile, outfile)`: parse and compile the
stylesheet, then transform the single document. -/
def xsl_transform (E : Engine D X) (infile xslFile outfile : String)
    (w : World) : Except (XErr × World) World :=
  match et_parse E xslFile w with
  | .error ew => .error ew
  | .ok (xslt, w1) =>
    match et_xslt E xslt w1 with
    | .error ew => .error ew
    | .ok (transform, w2) => transform_doc E infile transform outfile w2

/-- Append one line to standard output. -/
def printLine (w : World) (s : String) : World :=
  { w with stdout := w.stdout ++ [s] }

/-- The progress notice printed before each file of a batch:
`print("Transform: ", docfile)` joins its two arguments with a space. -/
def progressLine (docfile : String) : String :=
  "Transform: " ++ " " ++ docfile

/-- The `for docfile in infiles` loop of `xsl_transform_list_inplace`:
announce the file, then transform it in place with the compiled stylesheet;
an exception aborts the remaining files. -/
def transform_list_loop (E : Engine D X) (transform : Nat × X) :
    List String → World → Except (XErr × World) World
  | [], w => .ok w
  | docfile :: rest, w =>
    match transform_doc E docfile transform docfile
        (printLine w (progressLine docfile)) with
    | .error ew => .error ew
    | .ok w1 => transform_list_loop E transform rest w1

/-- `xsl_transform_list_inplace(infiles, xslFile)`: parse and compile the
stylesheet once, then transform every listed document in place in order. -/
def xsl_transform_list_inplace (E : Engine D X) (infiles : List String)
    (xslFile : String) (w : World) : Except (XErr × World) World :=
  match et_parse E xslFile w with
  | .error ew => .error ew
  | .ok (xslt, w1) =>
    match et_xslt E xslt w1 with
    | .error ew => .error ew
    | .ok (transform, w2) => transform_list_loop E transform infiles w2

/-- The usage message printed on a wrong argument count. -/
def usageMsg : String := "Transform error: Require 2 or 3 arguments"

/-- Model of Python `s.split(sep)` for a one-character separator: splitting
the character list from the right; an empty string yields `[""]`, and every
separator occurrence contributes one field boundary, so adjacent separators
yield empty fields. -/
def pySplit (sep : Char) (s : String) : List String :=
  s.data.foldr
    (fun c acc =>
      if c = sep then "" :: acc
      else String.mk (c :: acc.headI.data) :: acc.tail)
    [""]

/-- The module-level dispatch on `len(sys.argv)`: four entries (program name
plus three positional arguments) run the single transform, three entries run
the in-place batch over the first argument split on a semicolon, anything
else prints the usage message and does nothing. -/
def run_main (E : Engine D X) (argv : List String) (w : World) :
    Except (XErr × World) World :=
  if argv.length = 4 then
    xsl_transform E (argv.getD 1 "") (argv.getD 2 "") (argv.getD 3 "") w
  else if argv.length = 3 then
    xsl_transform_list_inplace E (pySplit ';' (argv.getD 1 ""))
      (argv.getD 2 "") w
  else
    .ok (printLine w usageMsg)

/-- The bytes that the pipeline of the script writes for one document whose
pre-transform content is `c`, under compiled stylesheet `t`: parse, apply,
serialize, with the trailing newline added by `print`. -/
def docResult (E : Engine D X) (t : X) (c : String) : Except XErr String :=
  match E.parseContent c with
  | .error e => .error e
  | .ok d =>
    match E.applyXslt t d with
    | .error e => .error e
    | .ok r => .ok (E.str r ++ "\n")

/-- Modelled from the spec: the bytes the underlying XSLT engine would
produce when applying a stylesheet with content `sc` to an XML input with
content `xc` directly — parse both, compile, apply, serialize, with nothing
added or removed.  The engine itself is not part of this repository; this
definition follows the words of the specification for comparison with what
the script writes. -/
def engineDirectOutput (E : Engine D X) (xc sc : String) : Except XErr String :=
  match E.parseContent xc with
  | .error e => .error e
  | .ok d =>
    match E.parseContent sc with
    | .error e => .error e
    | .ok sd =>
      match E.compileXslt sd with
      | .error e => .error e
      | .ok t =>
        match E.applyXslt t d with
        | .error e => .error e
        | .ok r => .ok (E.str r)

/-! ### A concrete engine and world for witnesses and counterexamples -/

/-- A concrete string engine: a document is its text; content `"BAD"` is
malformed; compilation always succeeds and returns the stylesheet text; the
application prepends the stylesheet text, failing on document `"TBAD"`. -/
def strE : Engine String String where
  parseContent := fun c => if c = "BAD" then .error .parseError else .ok c
  compileXslt := fun d => .ok d
  applyXslt := fun t d =>
    if d = "TBAD" then .error .transformError else .ok (t ++ d)
  str := fun d => d

/-- A concrete filesystem with a few XML files and one stylesheet. -/
def fs0 : String → Option String := fun p =>
  if p = "in.xml" then some "x"
  else if p = "sty.xsl" then some "y"
  else if p = "a.xml" then some "u"
  else if p = "b.xml" then some "v"
  else if p = "bad.xml" then some "BAD"
  else none

/-- A concrete initial world over `fs0`, everything writable, empty traces. -/
def w0 : World :=
  { fs := fs0, writable := fun _ => true, stdout := [],
    parseCalls := [], compileCalls := 0, applyCalls := [] }

/-! ### Inversion lemmas for the library-call wrappers -/

theorem et_parse_ok {E : Engine D X} {fname : String} {w : World} {d : D}
    {w' : World} (h : et_parse E fname w = .ok (d, w')) :
    ∃ c, w.fs fname = some c ∧ E.parseContent c = .ok d ∧
      w' = { w with parseCalls := w.parseCalls ++ [fname] } := by
  cases hf : w.fs fname with
  | none => simp [et_parse, hf] at h
  | some c =>
    cases hc : E.parseContent c with
    | error e => simp [et_parse, hf, hc] at h
    | ok d0 =>
      simp [et_parse, hf, hc] at h
      exact ⟨c, rfl, by rw [hc, h.1], h.2.symm⟩

theorem et_parse_err {E : Engine D X} {fname : String} {w : World} {e : XErr}
    {w' : World} (h : et_parse E fname w = .error (e, w')) :
    w' = { w with parseCalls := w.parseCalls ++ [fname] } := by
  cases hf : w.fs fname with
  | none => simp [et_parse, hf] at h; exact h.2.symm
  | some c =>
    cases hc : E.parseContent c with
    | error e0 => simp [et_parse, hf, hc] at h; exact h.2.symm
    | ok d0 => simp [et_parse, hf, hc] at h

theorem et_xslt_ok {E : Engine D X} {d : D} {w : World} {t : Nat × X}
    {w' : World} (h : et_xslt E d w = .ok (t, w')) :
    E.compileXslt d = .ok t.2 ∧ t.1 = w.compileCalls ∧
      w' = { w with compileCalls := w.compileCalls + 1 } := by
  cases hc : E.compileXslt d with
  | error e0 => simp [et_xslt, hc] at h
  | ok x =>
    simp [et_xslt, hc] at h
    refine ⟨?_, ?_, h.2.symm⟩
    · rw [← h.1]
    · rw [← h.1]

theorem et_xslt_err {E : Engine D X} {d : D} {w : World} {e : XErr}
    {w' : World} (h : et_xslt E d w = .error (e, w')) :
    w' = { w with compileCalls := w.compileCalls + 1 } := by
  cases hc : E.compileXslt d with
  | error e0 => simp [et_xslt, hc] at h; exact h.2.symm
  | ok x => simp [et_xslt, hc] at h

theorem applyTf_ok {E : Engine D X} {t : Nat × X} {d : D} {w : World}
    {r : D} {w' : World} (h : applyTf E t d w = .ok (r, w')) :
    E.applyXslt t.2 d = .ok r ∧
      w' = { w with applyCalls := w.applyCalls ++ [t.1] } := by
  cases hc : E.applyXslt t.2 d with
  | error e0 => simp [applyTf, hc] at h
  | ok r0 =>
    simp [applyTf, hc] at h
    exact ⟨by rw [h.1], h.2.symm⟩

theorem applyTf_err {E : Engine D X} {t : Nat × X} {d : D} {w : World}
    {e : XErr} {w' : World} (h : applyTf E t d w = .error (e, w')) :
    w' = { w with applyCalls := w.applyCalls ++ [t.1] } := by
  cases hc : E.applyXslt t.2 d with
  | error e0 => simp [applyTf, hc] at h; exact h.2.symm
  | ok r0 => simp [applyTf, hc] at h

theorem save_doc_ok {E : Engine D X} {doc : D} {filename : String}
    {w w' : World} (h : save_doc E doc filename w = .ok w') :
    w.writable filename = true ∧
      w' = { w with
             fs := fun p => if p = filename then some (E.str doc ++ "\n")
                            else w.fs p } := by
  by_cases hw : w.writable filename
  · simp [save_doc, hw] at h
    exact ⟨hw, h.symm⟩
  · simp [save_doc, hw] at h

theorem save_doc_err {E : Engine D X} {doc : D} {filename : String}
    {w : World} {e : XErr} {w' : World}
    (h : save_doc E doc filename w = .error (e, w')) : w' = w := by
  by_cases hw : w.writable filename
  · simp [save_doc, hw] at h
  · simp [save_doc, hw] at h
    exact h.2.symm

/-! ### Dispatch and usage handling -/

/-- C4: the command line entry dispatches on argument count: with three
positional arguments (four entries of `sys.argv` counting the program name)
it invokes the single transform on input, stylesheet and output in that
order; with two positional arguments it invokes the in-place batch over the
first argument split on a semicolon, with the second as the stylesheet. -/
theorem dispatch_on_argument_count (E : Engine D X) (p a b c : String)
    (w : World) :
    run_main E [p, a, b, c] w = xsl_transform E a b c w ∧
    run_main E [p, a, b] w =
      xsl_transform_list_inplace E (pySplit ';' a) b w := by
  constructor <;> rfl

/-- C7: with any argument count other than the two dispatched forms the
program prints the usage message to standard output and performs no work:
the filesystem, the parse trace, the compile count and the application trace
are untouched, and no failure is raised. -/
theorem usage_error_prints_and_does_nothing (E : Engine D X)
    (argv : List String) (w : World)
    (h3 : argv.length ≠ 3) (h4 : argv.length ≠ 4) :
    run_main E argv w = .ok (printLine w usageMsg) ∧
    (printLine w usageMsg).fs = w.fs ∧
    (printLine w usageMsg).parseCalls = w.parseCalls ∧
    (printLine w usageMsg).compileCalls = w.compileCalls ∧
    (printLine w usageMsg).applyCalls = w.applyCalls ∧
    (printLine w usageMsg).stdout = w.stdout ++ [usageMsg] := by
  refine ⟨?_, rfl, rfl, rfl, rfl, rfl⟩
  simp [run_main, h3, h4]

/-- Witness for the usage-error theorem at a concrete call with no
positional argument. -/
theorem usage_error_prints_and_does_nothing_witness :
    run_main strE ["prog"] w0 = .ok (printLine w0 usageMsg) ∧
    (printLine w0 usageMsg).fs = w0.fs ∧
    (printLine w0 usageMsg).parseCalls = w0.parseCalls ∧
    (printLine w0 usageMsg).compileCalls = w0.compileCalls ∧
    (printLine w0 usageMsg).applyCalls = w0.applyCalls ∧
    (printLine w0 usageMsg).stdout = w0.stdout ++ [usageMsg] :=
  usage_error_prints_and_does_nothing strE ["prog"] w0
    (by decide) (by decide)

/-! ### Per-file atomicity -/

/-- C9: if the per-file operation fails — in particular when parsing the
input or applying the transform fails — no file content changes at all: the
output file is only opened for truncating write after the transform has
succeeded. -/
theorem per_file_atomicity_on_error (E : Engine D X) (in_file : String)
    (t : Nat × X) (out_file : String) (w : World) (e : XErr) (w' : World)
    (herr : transform_doc E in_file t out_file w = .error (e, w')) :
    ∀ p, w'.fs p = w.fs p := by
  intro p
  unfold transform_doc at herr
  cases h1 : et_parse E in_file w with
  | error ew =>
    rw [h1] at herr
    cases herr
    have := et_parse_err h1
    rw [this]
  | ok dw =>
    obtain ⟨doc, w1⟩ := dw
    rw [h1] at herr
    dsimp only at herr
    obtain ⟨c, _, _, hw1⟩ := et_parse_ok h1
    cases h2 : applyTf E t doc w1 with
    | error ew =>
      rw [h2] at herr
      dsimp only at herr
      cases herr
      have := applyTf_err h2
      rw [this, hw1]
    | ok rw2 =>
      obtain ⟨r, w2⟩ := rw2
      rw [h2] at herr
      dsimp only at herr
      obtain ⟨_, hw2⟩ := applyTf_ok h2
      have := save_doc_err herr
      rw [this, hw2, hw1]

/-- Witness for per-file atomicity: parsing `bad.xml` fails, and the content
of the intended output file is untouched. -/
theorem per_file_atomicity_on_error_witness :
    (outWorld (transform_doc strE "bad.xml" ((0 : Nat), "y") "out.xml" w0)).fs
        "out.xml" = w0.fs "out.xml" :=
  per_file_atomicity_on_error strE "bad.xml" ((0 : Nat), "y") "out.xml" w0
    XErr.parseError
    (outWorld (transform_doc strE "bad.xml" ((0 : Nat), "y") "out.xml" w0))
    (by rfl) "out.xml"

/-! ### Characterization of the per-file operation -/

theorem transform_doc_ok {E : Engine D X} {i : String} {t : Nat × X}
    {o : String} {w w' : World} (h : transform_doc E i t o w = .ok w') :
    ∃ c d r, w.fs i = some c ∧ E.parseContent c = .ok d ∧
      E.applyXslt t.2 d = .ok r ∧ w.writable o = true ∧
      w' = { w with
             fs := fun p => if p = o then some (E.str r ++ "\n") else w.fs p,
             parseCalls := w.parseCalls ++ [i],
             applyCalls := w.applyCalls ++ [t.1] } := by
  unfold transform_doc at h
  cases h1 : et_parse E i w with
  | error ew => rw [h1] at h; cases h
  | ok dw =>
    obtain ⟨doc, w1⟩ := dw
    rw [h1] at h
    dsimp only at h
    obtain ⟨c, hc, hpc, hw1⟩ := et_parse_ok h1
    cases h2 : applyTf E t doc w1 with
    | error ew => rw [h2] at h; cases h
    | ok rw2 =>
      obtain ⟨r, w2⟩ := rw2
      rw [h2] at h
      dsimp only at h
      obtain ⟨hap, hw2⟩ := applyTf_ok h2
      obtain ⟨hwr, hw'⟩ := save_doc_ok h
      subst hw1
      subst hw2
      subst hw'
      exact ⟨c, doc, r, hc, hpc, hap, hwr, rfl⟩

theorem transform_doc_err {E : Engine D X} {i : String} {t : Nat × X}
    {o : String} {w : World} {e : XErr} {w' : World}
    (h : transform_doc E i t o w = .error (e, w')) :
    w'.fs = w.fs ∧ w'.writable = w.writable ∧ w'.stdout = w.stdout ∧
    w'.compileCalls = w.compileCalls ∧
    w'.parseCalls = w.parseCalls ++ [i] := by
  unfold transform_doc at h
  cases h1 : et_parse E i w with
  | error ew =>
    rw [h1] at h
    cases h
    rw [et_parse_err h1]
    exact ⟨rfl, rfl, rfl, rfl, rfl⟩
  | ok dw =>
    obtain ⟨doc, w1⟩ := dw
    rw [h1] at h
    dsimp only at h
    obtain ⟨c, hc, hpc, hw1⟩ := et_parse_ok h1
    cases h2 : applyTf E t doc w1 with
    | error ew =>
      rw [h2] at h
      dsimp only at h
      cases h
      rw [applyTf_err h2, hw1]
      exact ⟨rfl, rfl, rfl, rfl, rfl⟩
    | ok rw2 =>
      obtain ⟨r, w2⟩ := rw2
      rw [h2] at h
      dsimp only at h
      obtain ⟨hap, hw2⟩ := applyTf_ok h2
      rw [save_doc_err h, hw2, hw1]
      exact ⟨rfl, rfl, rfl, rfl, rfl⟩

/-! ### Single-transform output bytes -/

/-- C1 counterexample: applying the stylesheet directly, the engine produces
the bytes `"yx"`, but the script writes `"yx\n"` to the output file — the
`print` call in `save_doc` appends one newline, so the written bytes are not
exactly the engine bytes. -/
theorem single_transform_bytes_differ_from_engine :
    engineDirectOutput strE "x" "y" = Except.ok "yx" ∧
    (outWorld (xsl_transform strE "in.xml" "sty.xsl" "out.xml" w0)).fs
        "out.xml" = some "yx\n" ∧
    (some "yx\n" : Option String) ≠ some "yx" := by
  refine ⟨by rfl, by decide, by decide⟩

/-- Full computation of a successful single-transform run. -/
theorem xsl_transform_run_ok (E : Engine D X)
    (infile xslFile outfile : String) (w : World)
    (xc sc : String) (d sd : D) (t : X) (r : D)
    (hin : w.fs infile = some xc) (hsty : w.fs xslFile = some sc)
    (hd : E.parseContent xc = .ok d) (hsd : E.parseContent sc = .ok sd)
    (ht : E.compileXslt sd = .ok t) (hr : E.applyXslt t d = .ok r)
    (hwr : w.writable outfile = true) :
    xsl_transform E infile xslFile outfile w =
      .ok { w with
            fs := fun p => if p = outfile then some (E.str r ++ "\n")
                           else w.fs p,
            parseCalls := w.parseCalls ++ [xslFile] ++ [infile],
            compileCalls := w.compileCalls + 1,
            applyCalls := w.applyCalls ++ [w.compileCalls] } := by
  simp only [xsl_transform, transform_doc, et_parse, et_xslt, applyTf,
    save_doc, hin, hsty, hd, hsd, ht, hr, hwr, if_true]

/-- C1 amended: the single transform applies the stylesheet exactly once (no
double transformation: exactly one application is recorded, using the one
compiled stylesheet) and writes to the output path exactly the bytes the
engine would produce applying the stylesheet to the input directly, followed
by one trailing newline and nothing else. -/
theorem single_transform_writes_engine_bytes_plus_newline
    (E : Engine D X) (infile xslFile outfile : String) (w : World)
    (xc sc : String) (d sd : D) (t : X) (r : D)
    (hin : w.fs infile = some xc) (hsty : w.fs xslFile = some sc)
    (hd : E.parseContent xc = .ok d) (hsd : E.parseContent sc = .ok sd)
    (ht : E.compileXslt sd = .ok t) (hr : E.applyXslt t d = .ok r)
    (hwr : w.writable outfile = true) :
    engineDirectOutput E xc sc = .ok (E.str r) ∧
    xsl_transform E infile xslFile outfile w
        = .ok (outWorld (xsl_transform E infile xslFile outfile w)) ∧
    (outWorld (xsl_transform E infile xslFile outfile w)).fs outfile
        = some (E.str r ++ "\n") ∧
    (outWorld (xsl_transform E infile xslFile outfile w)).applyCalls
        = w.applyCalls ++ [w.compileCalls] := by
  have hrun := xsl_transform_run_ok E infile xslFile outfile w xc sc d sd t r
    hin hsty hd hsd ht hr hwr
  refine ⟨?_, ?_, ?_, ?_⟩
  · simp only [engineDirectOutput, hd, hsd, ht, hr]
  · rw [hrun]; rfl
  · rw [hrun]; simp [outWorld]
  · rw [hrun]; rfl

/-- Witness for the amended single-transform theorem at the concrete engine
and world. -/
theorem single_transform_writes_engine_bytes_plus_newline_witness :
    engineDirectOutput strE "x" "y" = .ok (strE.str "yx") ∧
    xsl_transform strE "in.xml" "sty.xsl" "out.xml" w0
        = .ok (outWorld (xsl_transform strE "in.xml" "sty.xsl" "out.xml" w0)) ∧
    (outWorld (xsl_transform strE "in.xml" "sty.xsl" "out.xml" w0)).fs
        "out.xml" = some (strE.str "yx" ++ "\n") ∧
    (outWorld (xsl_transform strE "in.xml" "sty.xsl" "out.xml" w0)).applyCalls
        = w0.applyCalls ++ [w0.compileCalls] :=
  single_transform_writes_engine_bytes_plus_newline strE "in.xml" "sty.xsl"
    "out.xml" w0 "x" "y" "x" "y" "y" "yx" (by decide) (by decide) (by rfl)
    (by rfl) (by rfl) (by rfl) (by decide)

/-! ### The batch loop -/

/-- The content the script leaves in a file whose pre-transform content was
`oc`, as an `Option`: `none` when the file was missing or a step failed. -/
def docResultO (E : Engine D X) (t : X) (oc : Option String) : Option String :=
  match oc with
  | none => none
  | some c =>
    match docResult E t c with
    | .error _ => none
    | .ok r => some r

theorem loop_ok (E : Engine D X) (tf : Nat × X) :
    ∀ (files : List String) (w w' : World),
      transform_list_loop E tf files w = .ok w' →
      w'.stdout = w.stdout ++ files.map progressLine ∧
      w'.parseCalls = w.parseCalls ++ files ∧
      w'.applyCalls = w.applyCalls ++ List.replicate files.length tf.1 ∧
      w'.compileCalls = w.compileCalls ∧
      w'.writable = w.writable ∧
      (∀ p, p ∉ files → w'.fs p = w.fs p) ∧
      (files.Nodup →
        ∀ f ∈ files, w'.fs f = docResultO E tf.2 (w.fs f) ∧
          docResultO E tf.2 (w.fs f) ≠ none) := by
  intro files
  induction files with
  | nil =>
    intro w w' h
    cases h
    simp
  | cons f rest ih =>
    intro w w' h
    unfold transform_list_loop at h
    cases h2 : transform_doc E f tf f (printLine w (progressLine f)) with
    | error ew => rw [h2] at h; cases h
    | ok w2 =>
      rw [h2] at h
      dsimp only at h
      obtain ⟨c, d, r, hc, hdc, hr, hwrt, hw2⟩ := transform_doc_ok h2
      have hcf : w.fs f = some c := hc
      have h2fs : ∀ p, w2.fs p =
          if p = f then some (E.str r ++ "\n") else w.fs p := by
        rw [hw2]; intro p; rfl
      have h2stdout : w2.stdout = w.stdout ++ [progressLine f] := by
        rw [hw2]; rfl
      have h2parse : w2.parseCalls = w.parseCalls ++ [f] := by rw [hw2]; rfl
      have h2apply : w2.applyCalls = w.applyCalls ++ [tf.1] := by
        rw [hw2]; rfl
      have h2cc : w2.compileCalls = w.compileCalls := by rw [hw2]; rfl
      have h2wr : w2.writable = w.writable := by rw [hw2]; rfl
      obtain ⟨ih1, ih2, ih3, ih4, ih5, ih6, ih7⟩ := ih w2 w' h
      refine ⟨?_, ?_, ?_, ?_, ?_, ?_, ?_⟩
      · rw [ih1, h2stdout]
        simp [List.append_assoc]
      · rw [ih2, h2parse]
        simp [List.append_assoc]
      · rw [ih3, h2apply]
        simp [List.replicate_succ, List.append_assoc]
      · rw [ih4, h2cc]
      · rw [ih5, h2wr]
      · intro p hp
        have hpf : p ≠ f := fun hh => hp (by simp [hh])
        have hpr : p ∉ rest := fun hh => hp (by simp [hh])
        rw [ih6 p hpr, h2fs p, if_neg hpf]
      · intro hnd g hg
        obtain ⟨hfr, hndr⟩ := List.nodup_cons.mp hnd
        rcases List.mem_cons.mp hg with rfl | hg'
        · have hfs' : w'.fs g = w2.fs g := ih6 g hfr
          rw [hfs', h2fs g, if_pos rfl, hcf]
          constructor
          · simp only [docResultO, docResult, hdc, hr]
          · simp only [docResultO, docResult, hdc, hr]
            exact fun hh => Option.noConfusion hh
        · have hgf : g ≠ f := fun hh => hfr (hh ▸ hg')
          obtain ⟨e1, e2⟩ := ih7 hndr g hg'
          rw [h2fs g, if_neg hgf] at e1 e2
          exact ⟨e1, e2⟩

theorem loop_err (E : Engine D X) (tf : Nat × X) :
    ∀ (files : List String) (w : World) (e : XErr) (w' : World),
      transform_list_loop E tf files w = .error (e, w') →
      ∃ k, k < files.length ∧
        w'.stdout = w.stdout ++ (files.take (k+1)).map progressLine ∧
        w'.parseCalls = w.parseCalls ++ files.take (k+1) ∧
        w'.compileCalls = w.compileCalls ∧
        w'.writable = w.writable ∧
        (∀ p, p ∉ files.take k → w'.fs p = w.fs p) ∧
        (files.Nodup →
          ∀ f ∈ files.take k, w'.fs f = docResultO E tf.2 (w.fs f) ∧
            docResultO E tf.2 (w.fs f) ≠ none) := by
  intro files
  induction files with
  | nil => intro w e w' h; cases h
  | cons f rest ih =>
    intro w e w' h
    unfold transform_list_loop at h
    cases h2 : transform_doc E f tf f (printLine w (progressLine f)) with
    | error ew =>
      obtain ⟨e0, w20⟩ := ew
      rw [h2] at h
      cases h
      obtain ⟨g1, g2, g3, g4, g5⟩ := transform_doc_err h2
      refine ⟨0, by simp, ?_, ?_, ?_, ?_, ?_, ?_⟩
      · rw [g3]; rfl
      · rw [g5]; rfl
      · rw [g4]; rfl
      · rw [g2]; rfl
      · intro p _
        exact congrFun g1 p
      · intro _ g hg
        simp at hg
    | ok w2 =>
      rw [h2] at h
      dsimp only at h
      obtain ⟨c, d, r, hc, hdc, hr, hwrt, hw2⟩ := transform_doc_ok h2
      have hcf : w.fs f = some c := hc
      have h2fs : ∀ p, w2.fs p =
          if p = f then some (E.str r ++ "\n") else w.fs p := by
        rw [hw2]; intro p; rfl
      have h2stdout : w2.stdout = w.stdout ++ [progressLine f] := by
        rw [hw2]; rfl
      have h2parse : w2.parseCalls = w.parseCalls ++ [f] := by rw [hw2]; rfl
      have h2cc : w2.compileCalls = w.compileCalls := by rw [hw2]; rfl
      have h2wr : w2.writable = w.writable := by rw [hw2]; rfl
      obtain ⟨k, hk, s2, p2, c2, wr2, fr2, ct2⟩ := ih w2 e w' h
      refine ⟨k + 1, by simpa using Nat.succ_lt_succ hk, ?_, ?_, ?_, ?_,
        ?_, ?_⟩
      · rw [List.take_succ_cons, List.map_cons, s2, h2stdout]
        simp [List.append_assoc]
      · rw [List.take_succ_cons, p2, h2parse]
        simp [List.append_assoc]
      · rw [c2, h2cc]
      · rw [wr2, h2wr]
      · intro p hp
        rw [List.take_succ_cons] at hp
        have hpf : p ≠ f := fun hh => hp (by simp [hh])
        have hpr : p ∉ rest.take k := fun hh => hp (by simp [hh])
        rw [fr2 p hpr, h2fs p, if_neg hpf]
      · intro hnd g hg
        obtain ⟨hfr, hndr⟩ := List.nodup_cons.mp hnd
        rw [List.take_succ_cons] at hg
        rcases List.mem_cons.mp hg with rfl | hg'
        · have hfk : g ∉ rest.take k :=
            fun hh => hfr (List.take_subset k rest hh)
          have hfs' : w'.fs g = w2.fs g := fr2 g hfk
          rw [hfs', h2fs g, if_pos rfl, hcf]
          constructor
          · simp only [docResultO, docResult, hdc, hr]
          · simp only [docResultO, docResult, hdc, hr]
            exact fun hh => Option.noConfusion hh
        · have hgf : g ≠ f :=
            fun hh => hfr (hh ▸ List.take_subset k rest hg')
          obtain ⟨e1, e2⟩ := ct2 hndr g hg'
          rw [h2fs g, if_neg hgf] at e1 e2
          exact ⟨e1, e2⟩

/-! ### The batch entry point -/

theorem list_inplace_run (E : Engine D X) (infiles : List String)
    (xslFile : String) (w : World) (sc : String) (sd : D) (t : X)
    (hsc : w.fs xslFile = some sc) (hsd : E.parseContent sc = .ok sd)
    (ht : E.compileXslt sd = .ok t) :
    xsl_transform_list_inplace E infiles xslFile w =
      transform_list_loop E (w.compileCalls, t) infiles
        { w with parseCalls := w.parseCalls ++ [xslFile],
                 compileCalls := w.compileCalls + 1 } := by
  simp only [xsl_transform_list_inplace, et_parse, et_xslt, hsc, hsd, ht]

theorem list_inplace_ok_inv {E : Engine D X} {infiles : List String}
    {xslFile : String} {w w' : World}
    (h : xsl_transform_list_inplace E infiles xslFile w = .ok w') :
    ∃ sc sd t, w.fs xslFile = some sc ∧ E.parseContent sc = .ok sd ∧
      E.compileXslt sd = .ok t ∧
      transform_list_loop E (w.compileCalls, t) infiles
        { w with parseCalls := w.parseCalls ++ [xslFile],
                 compileCalls := w.compileCalls + 1 } = .ok w' := by
  unfold xsl_transform_list_inplace at h
  cases h1 : et_parse E xslFile w with
  | error ew => rw [h1] at h; cases h
  | ok dw =>
    obtain ⟨sd0, w1⟩ := dw
    rw [h1] at h
    dsimp only at h
    obtain ⟨sc, hsc, hsd, hw1⟩ := et_parse_ok h1
    cases h2 : et_xslt E sd0 w1 with
    | error ew => rw [h2] at h; cases h
    | ok tw =>
      obtain ⟨tf, w2⟩ := tw
      rw [h2] at h
      dsimp only at h
      obtain ⟨hcx, hid, hw2⟩ := et_xslt_ok h2
      obtain ⟨i, x⟩ := tf
      refine ⟨sc, sd0, x, hsc, hsd, hcx, ?_⟩
      have hiw : i = w.compileCalls := by
        simpa [hw1] using hid
      rw [hiw] at h
      rw [hw2, hw1] at h
      exact h

/-- C2: a successful in-place batch over any list of files compiles exactly
one stylesheet (the compile count grows by exactly one regardless of the list
length), parses the stylesheet file once before any document, and every
application in the batch uses that single compiled stylesheet object (every
recorded application carries the identifier issued by the one compilation). -/
theorem batch_compiles_stylesheet_exactly_once (E : Engine D X)
    (infiles : List String) (xslFile : String) (w w' : World)
    (hok : xsl_transform_list_inplace E infiles xslFile w = .ok w') :
    w'.compileCalls = w.compileCalls + 1 ∧
    w'.parseCalls = w.parseCalls ++ xslFile :: infiles ∧
    w'.applyCalls =
      w.applyCalls ++ List.replicate infiles.length w.compileCalls := by
  obtain ⟨sc, sd, t, hsc, hsd, ht, hloop⟩ := list_inplace_ok_inv hok
  obtain ⟨l1, l2, l3, l4, l5, l6, l7⟩ :=
    loop_ok E (w.compileCalls, t) infiles _ w' hloop
  refine ⟨?_, ?_, ?_⟩
  · rw [l4]
  · rw [l2]; simp
  · rw [l3]

/-- Witness for the compile-once theorem on a concrete two-file batch. -/
theorem batch_compiles_stylesheet_exactly_once_witness :
    (outWorld (xsl_transform_list_inplace strE ["a.xml", "b.xml"]
        "sty.xsl" w0)).compileCalls = w0.compileCalls + 1 ∧
    (outWorld (xsl_transform_list_inplace strE ["a.xml", "b.xml"]
        "sty.xsl" w0)).parseCalls
      = w0.parseCalls ++ "sty.xsl" :: ["a.xml", "b.xml"] ∧
    (outWorld (xsl_transform_list_inplace strE ["a.xml", "b.xml"]
        "sty.xsl" w0)).applyCalls
      = w0.applyCalls ++
          List.replicate (["a.xml", "b.xml"] : List String).length
            w0.compileCalls :=
  batch_compiles_stylesheet_exactly_once strE ["a.xml", "b.xml"] "sty.xsl" w0
    (outWorld (xsl_transform_list_inplace strE ["a.xml", "b.xml"]
      "sty.xsl" w0)) (by rfl)

/-- C3: a successful in-place batch with pairwise-distinct files processes
the files strictly in the given order (the progress notices and the parse
trace list the files in input order) and overwrites each file with the
transform of the own pre-transform content of that same file. -/
theorem batch_in_order_each_own_content (E : Engine D X)
    (infiles : List String) (xslFile : String) (w w' : World)
    (sc : String) (sd : D) (t : X)
    (hnd : infiles.Nodup)
    (hsc : w.fs xslFile = some sc) (hsd : E.parseContent sc = .ok sd)
    (ht : E.compileXslt sd = .ok t)
    (hok : xsl_transform_list_inplace E infiles xslFile w = .ok w') :
    w'.stdout = w.stdout ++ infiles.map progressLine ∧
    w'.parseCalls = w.parseCalls ++ xslFile :: infiles ∧
    ∀ f ∈ infiles, w'.fs f = docResultO E t (w.fs f) ∧
      docResultO E t (w.fs f) ≠ none := by
  rw [list_inplace_run E infiles xslFile w sc sd t hsc hsd ht] at hok
  obtain ⟨l1, l2, l3, l4, l5, l6, l7⟩ :=
    loop_ok E (w.compileCalls, t) infiles _ w' hok
  refine ⟨?_, ?_, ?_⟩
  · rw [l1]
  · rw [l2]; simp
  · intro f hf
    exact l7 hnd f hf

/-- Witness for the batch order and per-file content theorem on a concrete
two-file batch, instantiated at the first file. -/
theorem batch_in_order_each_own_content_witness :
    (outWorld (xsl_transform_list_inplace strE ["a.xml", "b.xml"]
        "sty.xsl" w0)).stdout
      = w0.stdout ++ (["a.xml", "b.xml"] : List String).map progressLine ∧
    (outWorld (xsl_transform_list_inplace strE ["a.xml", "b.xml"]
        "sty.xsl" w0)).parseCalls
      = w0.parseCalls ++ "sty.xsl" :: ["a.xml", "b.xml"] ∧
    (outWorld (xsl_transform_list_inplace strE ["a.xml", "b.xml"]
        "sty.xsl" w0)).fs "a.xml" = docResultO strE "y" (w0.fs "a.xml") ∧
    docResultO strE "y" (w0.fs "a.xml") ≠ none := by
  have h := batch_in_order_each_own_content strE ["a.xml", "b.xml"]
    "sty.xsl" w0
    (outWorld (xsl_transform_list_inplace strE ["a.xml", "b.xml"]
      "sty.xsl" w0)) "y" "y" "y" (by decide) (by decide) (by rfl) (by rfl)
    (by rfl)
  exact ⟨h.1, h.2.1, (h.2.2 "a.xml" (by simp)).1, (h.2.2 "a.xml" (by simp)).2⟩

/-- C5: if the batch fails while processing the file at position `k`, the
files after position `k` are not processed (only the first `k+1` files are
announced and parsed), the overwrites of the files before position `k` are
kept (not rolled back), and the files from position `k` on are unchanged. -/
theorem batch_failure_aborts_rest_keeps_earlier (E : Engine D X)
    (infiles : List String) (xslFile : String) (w : World) (e : XErr)
    (w' : World) (sc : String) (sd : D) (t : X)
    (hnd : infiles.Nodup)
    (hsc : w.fs xslFile = some sc) (hsd : E.parseContent sc = .ok sd)
    (ht : E.compileXslt sd = .ok t)
    (herr : xsl_transform_list_inplace E infiles xslFile w
      = .error (e, w')) :
    ∃ k, k < infiles.length ∧
      w'.stdout = w.stdout ++ (infiles.take (k+1)).map progressLine ∧
      w'.parseCalls = w.parseCalls ++ xslFile :: infiles.take (k+1) ∧
      (∀ f ∈ infiles.take k, w'.fs f = docResultO E t (w.fs f) ∧
        docResultO E t (w.fs f) ≠ none) ∧
      (∀ f ∈ infiles.drop k, w'.fs f = w.fs f) := by
  rw [list_inplace_run E infiles xslFile w sc sd t hsc hsd ht] at herr
  obtain ⟨k, hk, s2, p2, c2, wr2, fr2, ct2⟩ :=
    loop_err E (w.compileCalls, t) infiles _ e w' herr
  refine ⟨k, hk, ?_, ?_, ?_, ?_⟩
  · rw [s2]
  · rw [p2]; simp
  · intro f hf
    exact ct2 hnd f hf
  · intro f hf
    have hfk : f ∉ infiles.take k :=
      fun hh => (List.disjoint_take_drop hnd le_rfl) hh hf
    exact fr2 f hfk

/-- Witness for the batch failure theorem: the second of three files is
malformed, the run fails there, the first overwrite is kept and the third
file is untouched. -/
theorem batch_failure_aborts_rest_keeps_earlier_witness :
    ∃ k, k < (["a.xml", "bad.xml", "b.xml"] : List String).length ∧
      (outWorld (xsl_transform_list_inplace strE
          ["a.xml", "bad.xml", "b.xml"] "sty.xsl" w0)).stdout
        = w0.stdout ++
            ((["a.xml", "bad.xml", "b.xml"] : List String).take
              (k+1)).map progressLine ∧
      (outWorld (xsl_transform_list_inplace strE
          ["a.xml", "bad.xml", "b.xml"] "sty.xsl" w0)).parseCalls
        = w0.parseCalls ++
            "sty.xsl" :: (["a.xml", "bad.xml", "b.xml"] : List String).take
              (k+1) ∧
      (∀ f ∈ (["a.xml", "bad.xml", "b.xml"] : List String).take k,
        (outWorld (xsl_transform_list_inplace strE
            ["a.xml", "bad.xml", "b.xml"] "sty.xsl" w0)).fs f
          = docResultO strE "y" (w0.fs f) ∧
        docResultO strE "y" (w0.fs f) ≠ none) ∧
      (∀ f ∈ (["a.xml", "bad.xml", "b.xml"] : List String).drop k,
        (outWorld (xsl_transform_list_inplace strE
            ["a.xml", "bad.xml", "b.xml"] "sty.xsl" w0)).fs f
          = w0.fs f) :=
  batch_failure_aborts_rest_keeps_earlier strE ["a.xml", "bad.xml", "b.xml"]
    "sty.xsl" w0 XErr.parseError
    (outWorld (xsl_transform_list_inplace strE ["a.xml", "bad.xml", "b.xml"]
      "sty.xsl" w0)) "y" "y" "y" (by decide) (by decide) (by rfl) (by rfl)
    (by rfl)

/-! ### Frame property of the single transform -/

theorem transform_doc_frame (E : Engine D X) (i : String) (t : Nat × X)
    (o : String) (w : World) (p : String) (hp : p ≠ o) :
    (outWorld (transform_doc E i t o w)).fs p = w.fs p := by
  cases h : transform_doc E i t o w with
  | error ew =>
    obtain ⟨e, w'⟩ := ew
    have hfs := (transform_doc_err h).1
    show w'.fs p = w.fs p
    rw [hfs]
  | ok w' =>
    obtain ⟨c, d, r, _, _, _, _, hw'⟩ := transform_doc_ok h
    show w'.fs p = w.fs p
    rw [hw']
    simp [hp]

theorem xsl_transform_frame (E : Engine D X) (infile xslFile outfile : String)
    (w : World) (p : String) (hp : p ≠ outfile) :
    (outWorld (xsl_transform E infile xslFile outfile w)).fs p = w.fs p := by
  unfold xsl_transform
  cases h1 : et_parse E xslFile w with
  | error ew =>
    obtain ⟨e, w1⟩ := ew
    show w1.fs p = w.fs p
    rw [et_parse_err h1]
  | ok dw =>
    obtain ⟨sd0, w1⟩ := dw
    obtain ⟨sc, hsc, hsd, hw1⟩ := et_parse_ok h1
    dsimp only
    cases h2 : et_xslt E sd0 w1 with
    | error ew =>
      obtain ⟨e, w2⟩ := ew
      show w2.fs p = w.fs p
      rw [et_xslt_err h2, hw1]
    | ok tw =>
      obtain ⟨tf, w2⟩ := tw
      obtain ⟨_, _, hw2⟩ := et_xslt_ok h2
      dsimp only
      have hfr := transform_doc_frame E infile tf outfile w2 p hp
      rw [hfr, hw2, hw1]

/-- C6 counterexample: after a successful single transform the output file
does not contain exactly the transformation of the input content — the
transformation of `"u"` by the stylesheet serializes to `"yu"`, but the
output file holds `"yu\n"` with the newline appended by `print`. -/
theorem single_transform_output_not_exact_transformation :
    engineDirectOutput strE "u" "y" = Except.ok "yu" ∧
    (outWorld (xsl_transform strE "a.xml" "sty.xsl" "c.xml" w0)).fs "c.xml"
      = some "yu\n" ∧
    (some "yu\n" : Option String) ≠ some "yu" := by
  refine ⟨by rfl, by decide, by decide⟩

/-- C6 amended: the input file is never modified unless the output path
equals the input path (indeed no path other than the output path is ever
modified), and after a successful run the output file contains exactly the
serialization of the transformation of the input content as it was at the
moment of invocation, followed by one trailing newline. -/
theorem single_transform_frame_and_content (E : Engine D X)
    (infile xslFile outfile : String) (w : World) :
    (infile ≠ outfile →
      (outWorld (xsl_transform E infile xslFile outfile w)).fs infile
        = w.fs infile) ∧
    (∀ p, p ≠ outfile →
      (outWorld (xsl_transform E infile xslFile outfile w)).fs p = w.fs p) ∧
    (∀ xc sc : String, ∀ d sd : D, ∀ t : X, ∀ r : D,
      w.fs infile = some xc → w.fs xslFile = some sc →
      E.parseContent xc = .ok d → E.parseContent sc = .ok sd →
      E.compileXslt sd = .ok t → E.applyXslt t d = .ok r →
      w.writable outfile = true →
      xsl_transform E infile xslFile outfile w
          = .ok (outWorld (xsl_transform E infile xslFile outfile w)) ∧
      (outWorld (xsl_transform E infile xslFile outfile w)).fs outfile
          = some (E.str r ++ "\n")) := by
  refine ⟨?_, ?_, ?_⟩
  · intro hne
    exact xsl_transform_frame E infile xslFile outfile w infile hne
  · intro p hp
    exact xsl_transform_frame E infile xslFile outfile w p hp
  · intro xc sc d sd t r hin hsty hd hsd ht hr hwr
    have hrun := xsl_transform_run_ok E infile xslFile outfile w xc sc d sd
      t r hin hsty hd hsd ht hr hwr
    constructor
    · rw [hrun]; rfl
    · rw [hrun]; simp [outWorld]

/-- Witness for the frame-and-content theorem at the concrete engine: the
input file `a.xml` is untouched and the distinct output file `c.xml` holds
the serialized transformation plus one newline. -/
theorem single_transform_frame_and_content_witness :
    (outWorld (xsl_transform strE "a.xml" "sty.xsl" "c.xml" w0)).fs "a.xml"
      = w0.fs "a.xml" ∧
    xsl_transform strE "a.xml" "sty.xsl" "c.xml" w0
      = .ok (outWorld (xsl_transform strE "a.xml" "sty.xsl" "c.xml" w0)) ∧
    (outWorld (xsl_transform strE "a.xml" "sty.xsl" "c.xml" w0)).fs "c.xml"
      = some (strE.str "yu" ++ "\n") := by
  have h := single_transform_frame_and_content strE "a.xml" "sty.xsl"
    "c.xml" w0
  have hc := h.2.2 "u" "y" "u" "y" "y" "yu" (by decide) (by decide) (by rfl)
    (by rfl) (by rfl) (by rfl) (by decide)
  exact ⟨h.1 (by decide), hc.1, hc.2⟩

/-! ### Error propagation -/

/-- C8: an error escapes `transform_doc`, `xsl_transform` and
`xsl_transform_list_inplace` exactly when one of their steps fails, and the
escaping error is exactly the error of the first failing step, with the
world it left behind: nothing is caught, altered, retried or suppressed on
the way out. -/
theorem errors_propagate_uncaught (E : Engine D X) (tf : Nat × X)
    (infile xslFile outfile : String) (binfiles : List String)
    (w : World) (e : XErr) (w' : World) :
    (transform_doc E infile tf outfile w = .error (e, w') ↔
      et_parse E infile w = .error (e, w') ∨
      (∃ d w1, et_parse E infile w = .ok (d, w1) ∧
        applyTf E tf d w1 = .error (e, w')) ∨
      (∃ d w1 r w2, et_parse E infile w = .ok (d, w1) ∧
        applyTf E tf d w1 = .ok (r, w2) ∧
        save_doc E r outfile w2 = .error (e, w'))) ∧
    (xsl_transform E infile xslFile outfile w = .error (e, w') ↔
      et_parse E xslFile w = .error (e, w') ∨
      (∃ sd w1, et_parse E xslFile w = .ok (sd, w1) ∧
        et_xslt E sd w1 = .error (e, w')) ∨
      (∃ sd w1 t2 w2, et_parse E xslFile w = .ok (sd, w1) ∧
        et_xslt E sd w1 = .ok (t2, w2) ∧
        transform_doc E infile t2 outfile w2 = .error (e, w'))) ∧
    (xsl_transform_list_inplace E binfiles xslFile w = .error (e, w') ↔
      et_parse E xslFile w = .error (e, w') ∨
      (∃ sd w1, et_parse E xslFile w = .ok (sd, w1) ∧
        et_xslt E sd w1 = .error (e, w')) ∨
      (∃ sd w1 t2 w2, et_parse E xslFile w = .ok (sd, w1) ∧
        et_xslt E sd w1 = .ok (t2, w2) ∧
        transform_list_loop E t2 binfiles w2 = .error (e, w'))) := by
  refine ⟨?_, ?_, ?_⟩
  · constructor
    · intro h
      unfold transform_doc at h
      cases h1 : et_parse E infile w with
      | error ew =>
        rw [h1] at h
        cases h
        exact Or.inl rfl
      | ok dw =>
        obtain ⟨d0, w1⟩ := dw
        rw [h1] at h
        dsimp only at h
        cases h2 : applyTf E tf d0 w1 with
        | error ew =>
          rw [h2] at h
          cases h
          exact Or.inr (Or.inl ⟨d0, w1, rfl, h2⟩)
        | ok rw2 =>
          obtain ⟨r0, w2⟩ := rw2
          rw [h2] at h
          dsimp only at h
          exact Or.inr (Or.inr ⟨d0, w1, r0, w2, rfl, h2, h⟩)
    · intro h
      rcases h with h1 | ⟨d0, w1, h1, h2⟩ | ⟨d0, w1, r0, w2, h1, h2, h3⟩
      · unfold transform_doc
        rw [h1]
      · unfold transform_doc
        rw [h1]
        dsimp only
        rw [h2]
      · unfold transform_doc
        rw [h1]
        dsimp only
        rw [h2]
        dsimp only
        exact h3
  · constructor
    · intro h
      unfold xsl_transform at h
      cases h1 : et_parse E xslFile w with
      | error ew =>
        rw [h1] at h
        cases h
        exact Or.inl rfl
      | ok dw =>
        obtain ⟨sd0, w1⟩ := dw
        rw [h1] at h
        dsimp only at h
        cases h2 : et_xslt E sd0 w1 with
        | error ew =>
          rw [h2] at h
          cases h
          exact Or.inr (Or.inl ⟨sd0, w1, rfl, h2⟩)
        | ok tw =>
          obtain ⟨t2, w2⟩ := tw
          rw [h2] at h
          dsimp only at h
          exact Or.inr (Or.inr ⟨sd0, w1, t2, w2, rfl, h2, h⟩)
    · intro h
      rcases h with h1 | ⟨sd0, w1, h1, h2⟩ | ⟨sd0, w1, t2, w2, h1, h2, h3⟩
      · unfold xsl_transform
        rw [h1]
      · unfold xsl_transform
        rw [h1]
        dsimp only
        rw [h2]
      · unfold xsl_transform
        rw [h1]
        dsimp only
        rw [h2]
        dsimp only
        exact h3
  · constructor
    · intro h
      unfold xsl_transform_list_inplace at h
      cases h1 : et_parse E xslFile w with
      | error ew =>
        rw [h1] at h
        cases h
        exact Or.inl rfl
      | ok dw =>
        obtain ⟨sd0, w1⟩ := dw
        rw [h1] at h
        dsimp only at h
        cases h2 : et_xslt E sd0 w1 with
        | error ew =>
          rw [h2] at h
          cases h
          exact Or.inr (Or.inl ⟨sd0, w1, rfl, h2⟩)
        | ok tw =>
          obtain ⟨t2, w2⟩ := tw
          rw [h2] at h
          dsimp only at h
          exact Or.inr (Or.inr ⟨sd0, w1, t2, w2, rfl, h2, h⟩)
    · intro h
      rcases h with h1 | ⟨sd0, w1, h1, h2⟩ | ⟨sd0, w1, t2, w2, h1, h2, h3⟩
      · unfold xsl_transform_list_inplace
        rw [h1]
      · unfold xsl_transform_list_inplace
        rw [h1]
        dsimp only
        rw [h2]
      · unfold xsl_transform_list_inplace
        rw [h1]
        dsimp only
        rw [h2]
        dsimp only
        exact h3

/-- Witness for error propagation: a missing stylesheet file makes the
single transform fail with exactly the io error raised by the parse step,
parse trace included. -/
theorem errors_propagate_uncaught_witness :
    xsl_transform strE "in.xml" "nofile.xsl" "out.xml" w0
      = .error (XErr.ioError,
          { w0 with parseCalls := w0.parseCalls ++ ["nofile.xsl"] }) :=
  (errors_propagate_uncaught strE ((0 : Nat), "y") "in.xml" "nofile.xsl"
    "out.xml" [] w0 XErr.ioError
    { w0 with parseCalls := w0.parseCalls ++ ["nofile.xsl"] }).2.1.mpr
    (Or.inl (by rfl))

/-! ### The batch input list is never empty -/

theorem pySplit_ne_nil (sep : Char) (s : String) : pySplit sep s ≠ [] := by
  unfold pySplit
  induction s.data with
  | nil => simp
  | cons c cs ih =>
    simp only [List.foldr_cons]
    split <;> simp

theorem loop_first_attempt (E : Engine D X) (tf : Nat × X) (f : String)
    (rest : List String) (w : World) :
    ∃ l1 l2,
      (outWorld (transform_list_loop E tf (f :: rest) w)).stdout
        = w.stdout ++ progressLine f :: l1 ∧
      (outWorld (transform_list_loop E tf (f :: rest) w)).parseCalls
        = w.parseCalls ++ f :: l2 := by
  cases h : transform_list_loop E tf (f :: rest) w with
  | error ew =>
    obtain ⟨e, w'⟩ := ew
    obtain ⟨k, hk, s2, p2, _, _, _, _⟩ := loop_err E tf (f :: rest) w e w' h
    refine ⟨(rest.take k).map progressLine, rest.take k, ?_, ?_⟩
    · show w'.stdout = _
      rw [s2, List.take_succ_cons, List.map_cons]
    · show w'.parseCalls = _
      rw [p2, List.take_succ_cons]
  | ok w' =>
    obtain ⟨s2, p2, _, _, _, _, _⟩ := loop_ok E tf (f :: rest) w w' h
    refine ⟨rest.map progressLine, rest, ?_, ?_⟩
    · show w'.stdout = _
      rw [s2, List.map_cons]
    · show w'.parseCalls = _
      rw [p2]

/-- C10: splitting any string on the semicolon yields at least one path (an
empty argument yields the single empty path, adjacent delimiters yield empty
paths), so the batch always receives a non-empty list; consequently, once
the stylesheet is parsed and compiled, the batch announces and attempts to
parse at least the first listed file, whatever the outcome. -/
theorem batch_list_never_empty (E : Engine D X) (s xslFile : String)
    (w : World) (sc : String) (sd : D) (t : X)
    (hsc : w.fs xslFile = some sc) (hsd : E.parseContent sc = .ok sd)
    (ht : E.compileXslt sd = .ok t) :
    pySplit ';' s ≠ [] ∧
    pySplit ';' "" = [""] ∧
    pySplit ';' "a;;b" = ["a", "", "b"] ∧
    ∃ l1 l2,
      (outWorld (xsl_transform_list_inplace E (pySplit ';' s)
          xslFile w)).stdout
        = w.stdout ++ progressLine ((pySplit ';' s).headI) :: l1 ∧
      (outWorld (xsl_transform_list_inplace E (pySplit ';' s)
          xslFile w)).parseCalls
        = w.parseCalls ++ xslFile :: (pySplit ';' s).headI :: l2 := by
  refine ⟨pySplit_ne_nil ';' s, by decide, by decide, ?_⟩
  rw [list_inplace_run E (pySplit ';' s) xslFile w sc sd t hsc hsd ht]
  cases hsp : pySplit ';' s with
  | nil => exact absurd hsp (pySplit_ne_nil ';' s)
  | cons f rest =>
    obtain ⟨l1, l2, hs, hp⟩ := loop_first_attempt E (w.compileCalls, t) f
      rest { w with parseCalls := w.parseCalls ++ [xslFile],
                    compileCalls := w.compileCalls + 1 }
    refine ⟨l1, l2, ?_, ?_⟩
    · rw [hs]
      rfl
    · rw [hp]
      simp

/-- Witness for the never-empty batch list theorem on a concrete semicolon
separated argument. -/
theorem batch_list_never_empty_witness :
    pySplit ';' "a.xml;b.xml" ≠ [] ∧
    pySplit ';' "" = [""] ∧
    pySplit ';' "a;;b" = ["a", "", "b"] ∧
    ∃ l1 l2,
      (outWorld (xsl_transform_list_inplace strE (pySplit ';' "a.xml;b.xml")
          "sty.xsl" w0)).stdout
        = w0.stdout ++
            progressLine ((pySplit ';' "a.xml;b.xml").headI) :: l1 ∧
      (outWorld (xsl_transform_list_inplace strE (pySplit ';' "a.xml;b.xml")
          "sty.xsl" w0)).parseCalls
        = w0.parseCalls ++
            "sty.xsl" :: (pySplit ';' "a.xml;b.xml").headI :: l2 :=
  batch_list_never_empty strE "a.xml;b.xml" "sty.xsl" w0 "y" "y" "y"
    (by decide) (by rfl) (by rfl)
